import Mathlib

/-!
# gourmAgent — verification of the tool-use orchestration loop

Shallow embedding of the gourmAgent repository
(`packages/agent/src/gourmAgent/`): the orchestration loop of `agent.py`,
the preference tools of `tools/prefs.py` backed by the store of
`memory/store.py`, and the restaurant search of `tools/places.py`.

External collaborators (the Anthropic model client, the Google Places
client, the SQLite engine) are modelled as explicit parameters: the model
client is a script of responses consumed one per inference call, the
places client is a record of oracle functions, and the store is an
association list keyed by user id.
-/

namespace GourmAgent

/-! ## JSON values and serialization

`json.dumps` / `json.loads` are Python standard-library functions, not
part of this repository.  Modelled from the spec: §4.2 requires the
executor to serialize results "to a canonical string form (stable key
ordering not required, but must round-trip through deserialization to an
equivalent structure)".  `dumps` below emits a canonical compact JSON
form (strings escape only the quote and backslash characters, numbers
are integers) and `loads` is its verified inverse. -/

inductive Json where
  | null : Json
  | bool (b : Bool) : Json
  | num (n : Int) : Json
  | str (s : String) : Json
  | arr (elems : List Json) : Json
  | obj (members : List (String × Json)) : Json

/-- Characters of the decimal representation of a natural number. -/
def digitChar (n : Nat) : Char := Char.ofNat (48 + n)

def natDigits (n : Nat) : List Char :=
  if _h : n < 10 then [digitChar n]
  else natDigits (n / 10) ++ [digitChar (n % 10)]
decreasing_by
  exact Nat.div_lt_self (by omega) (by omega)

/-- Decimal representation of an integer. -/
def intChars (k : Int) : List Char :=
  if k < 0 then '-' :: natDigits k.natAbs else natDigits k.toNat

/-- String escaping: quote and backslash are escaped, everything else is
emitted verbatim (a round-tripping canonical form, per the spec). -/
def escChar (c : Char) : List Char :=
  if c = '"' ∨ c = '\\' then ['\\', c] else [c]

def escape : List Char → List Char
  | [] => []
  | c :: cs => escChar c ++ escape cs

mutual

/-- Serialize a JSON value to characters (canonical compact form). -/
def emit : Json → List Char
  | .null => "null".data
  | .bool b => if b then "true".data else "false".data
  | .num k => intChars k
  | .str s => '"' :: (escape s.data ++ ['"'])
  | .arr xs => '[' :: (emitElems xs ++ [']'])
  | .obj kvs => '\x7b' :: (emitMembers kvs ++ ['\x7d'])

def emitElems : List Json → List Char
  | [] => []
  | [x] => emit x
  | x :: y :: xs => emit x ++ ',' :: emitElems (y :: xs)

def emitMembers : List (String × Json) → List Char
  | [] => []
  | [(k, v)] => '"' :: (escape k.data ++ '"' :: ':' :: emit v)
  | (k, v) :: m :: kvs =>
      ('"' :: (escape k.data ++ '"' :: ':' :: emit v)) ++ ',' :: emitMembers (m :: kvs)

end

/-- `json.dumps`, modelled from the spec (canonical compact form). -/
def dumps (v : Json) : String := String.mk (emit v)

/-! ### Parsing (the inverse of `dumps`) -/

def isDigitChar (c : Char) : Bool := decide (48 ≤ c.toNat ∧ c.toNat ≤ 57)

def digitVal (c : Char) : Nat := c.toNat - 48

/-- Maximal run of digit characters, accumulating a value. -/
def takeDigits : List Char → List Char × List Char
  | [] => ([], [])
  | c :: cs =>
      if isDigitChar c then
        let p := takeDigits cs
        (c :: p.1, p.2)
      else ([], c :: cs)

def digitsVal (ds : List Char) : Nat :=
  ds.foldl (fun a c => 10 * a + digitVal c) 0

/-- Parse a nonempty run of digits as a natural number. -/
def parseNat (input : List Char) : Option (Nat × List Char) :=
  let p := takeDigits input
  if p.1 = [] then none else some (digitsVal p.1, p.2)

/-- Parse the body of a string literal (after the opening quote), up to
and including the closing quote. -/
def parseStrBody : List Char → Option (List Char × List Char)
  | [] => none
  | c :: cs =>
      if c = '"' then some ([], cs)
      else if c = '\\' then
        match cs with
        | [] => none
        | d :: ds =>
            match parseStrBody ds with
            | some (s, rest) => some (d :: s, rest)
            | none => none
      else
        match parseStrBody cs with
        | some (s, rest) => some (c :: s, rest)
        | none => none

def dropLit : List Char → List Char → Option (List Char)
  | [], s => some s
  | _ :: _, [] => none
  | c :: p, x :: s => if x = c then dropLit p s else none

mutual

/-- Recursive-descent JSON parser (fuel-indexed). -/
def parseVal : Nat → List Char → Option (Json × List Char)
  | 0, _ => none
  | _ + 1, [] => none
  | f + 1, c :: cs =>
      if c = '"' then
        match parseStrBody cs with
        | some (s, rest) => some (.str (String.mk s), rest)
        | none => none
      else if c = '[' then
        match cs with
        | [] => none
        | d :: ds =>
            if d = ']' then some (.arr [], ds)
            else
              match parseElems f (d :: ds) with
              | some (xs, rest) =>
                  match rest with
                  | e :: es => if e = ']' then some (.arr xs, es) else none
                  | [] => none
              | none => none
      else if c = '\x7b' then
        match cs with
        | [] => none
        | d :: ds =>
            if d = '\x7d' then some (.obj [], ds)
            else
              match parseMembers f (d :: ds) with
              | some (kvs, rest) =>
                  match rest with
                  | e :: es => if e = '\x7d' then some (.obj kvs, es) else none
                  | [] => none
              | none => none
      else if c = '-' then
        match parseNat cs with
        | some (n, rest) => some (.num (-(n : Int)), rest)
        | none => none
      else if c = 'n' then
        match dropLit ['u', 'l', 'l'] cs with
        | some rest => some (.null, rest)
        | none => none
      else if c = 't' then
        match dropLit ['r', 'u', 'e'] cs with
        | some rest => some (.bool true, rest)
        | none => none
      else if c = 'f' then
        match dropLit ['a', 'l', 's', 'e'] cs with
        | some rest => some (.bool false, rest)
        | none => none
      else if isDigitChar c then
        match parseNat (c :: cs) with
        | some (n, rest) => some (.num (n : Int), rest)
        | none => none
      else none

/-- Parse a nonempty comma-separated list of values. -/
def parseElems : Nat → List Char → Option (List Json × List Char)
  | 0, _ => none
  | f + 1, input =>
      match parseVal f input with
      | none => none
      | some (v, rest) =>
          match rest with
          | c :: more =>
              if c = ',' then
                match parseElems f more with
                | some (xs, r) => some (v :: xs, r)
                | none => none
              else some ([v], c :: more)
          | [] => some ([v], [])

/-- Parse a nonempty comma-separated list of `"key":value` members. -/
def parseMembers : Nat → List Char → Option (List (String × Json) × List Char)
  | 0, _ => none
  | f + 1, input =>
      match input with
      | [] => none
      | c :: cs =>
          if c = '"' then
            match parseStrBody cs with
            | some (k, rest1) =>
                match rest1 with
                | d :: rest2 =>
                    if d = ':' then
                      match parseVal f rest2 with
                      | some (v, rest3) =>
                          match rest3 with
                          | e :: more =>
                              if e = ',' then
                                match parseMembers f more with
                                | some (kvs, r) => some ((String.mk k, v) :: kvs, r)
                                | none => none
                              else some ([(String.mk k, v)], e :: more)
                          | [] => some ([(String.mk k, v)], [])
                      | none => none
                    else none
                | [] => none
            | none => none
          else none

end

/-- The first character, if any, is not a digit (parsing a number before
such a suffix stops exactly at the suffix). -/
def noDigitHead (l : List Char) : Prop :=
  ∀ c, l.head? = some c → isDigitChar c = false

/-- `json.loads`, modelled from the spec: the inverse of `dumps`. -/
def loads (s : String) : Option Json :=
  match parseVal (s.data.length + 1) s.data with
  | some (v, []) => some v
  | _ => none

/-! ## Agent loop (`agent.py`)

The Anthropic response content is a list of typed blocks; the loop only
distinguishes `text` and `tool_use` blocks (any other block type is
ignored by both filters in `run`, modelled by the `other` constructor).
Tool callables are modelled as functions into `Except String Json`: a
Python exception is `Except.error` carrying the exception message.  The
model client is modelled as a script of responses, consumed one per
`client.messages.create` call; a scripted `Except.error` is an inference
call that raises. -/

/-- One `tool_use` content block: `tu.id`, `tu.name`, `tu.input`. -/
structure ToolUse where
  id : String
  name : String
  input : List (String × Json)

/-- One content block of a model response. -/
inductive Block where
  | text (s : String)
  | tool_use (tu : ToolUse)
  | other (tag : String)

/-- One model response: `response.stop_reason`, `response.content`. -/
structure Response where
  stop_reason : String
  content : List Block

def blockToolUse : Block → Option ToolUse
  | .tool_use tu => some tu
  | _ => none

def blockText : Block → Option String
  | .text s => some s
  | _ => none

/-- `[block for block in response.content if block.type == "tool_use"]` -/
def toolUses (r : Response) : List ToolUse := r.content.filterMap blockToolUse

/-- `[block.text for block in response.content if block.type == "text"]` -/
def textBlocks (r : Response) : List String := r.content.filterMap blockText

/-- A tool callable: arguments (keyword mapping) to result, or a raised
exception message. -/
def ToolFn : Type := List (String × Json) → Except String Json

/-- The tool registry `_TOOL_DISPATCH`, abstracted as a partial map from
tool name to callable. -/
def Registry : Type := String → Option ToolFn

/-- `_dispatch_tool`: look the name up; `None` raises
`ValueError(f"Unknown tool: {name}")`, otherwise call `fn(**inputs)`. -/
def dispatch_tool (registry : Registry) (name : String)
    (inputs : List (String × Json)) : Except String Json :=
  match registry name with
  | none => .error ("Unknown tool: " ++ name)
  | some fn => fn inputs

/-- One `tool_result` block appended to the transcript. -/
structure ToolResult where
  tool_use_id : String
  content : String
  is_error : Bool

/-- One entry of `tool_calls_log`. -/
structure LogEntry where
  tool : String
  input : List (String × Json)
  output : String
  error : Bool

/-- Content of one transcript message. -/
inductive MessageContent where
  | text (s : String)
  | blocks (bs : List Block)
  | results (rs : List ToolResult)

structure Message where
  role : String
  content : MessageContent

/-- The dict returned by `run`. -/
structure RunResult where
  response : String
  tool_calls : List LogEntry

/-- The body of the `for tu in tool_uses` loop in `run`: dispatch inside
`try`, catching any exception as a `{"error": str(exc)}` payload, and
produce the log entry and the `tool_result` block. -/
def execTool (registry : Registry) (tu : ToolUse) : LogEntry × ToolResult :=
  let r : String × Bool :=
    match dispatch_tool registry tu.name tu.input with
    | .ok result => (dumps result, false)
    | .error exc => (dumps (.obj [("error", .str exc)]), true)
  ({ tool := tu.name, input := tu.input, output := r.1, error := r.2 },
   { tool_use_id := tu.id, content := r.1, is_error := r.2 })

/-- The `while True` loop of `run`.  `script` holds the responses the
model client returns, one per inference call; `Except.error` is an
inference call that raises, which propagates out of the loop.  `Except.ok
none` means the scripted responses were exhausted with the loop still
running (the loop itself is unbounded). -/
def runLoop (registry : Registry) (script : List (Except String Response))
    (messages : List Message) (tool_calls_log : List LogEntry) :
    Except String (Option RunResult) :=
  match script with
  | [] => .ok none
  | .error e :: _ => .error e
  | .ok response :: rest =>
      let tool_uses := toolUses response
      if response.stop_reason = "end_turn" ∨ tool_uses.isEmpty then
        .ok (some { response := String.intercalate "\n" (textBlocks response),
                    tool_calls := tool_calls_log })
      else
        let messages := messages ++ [{ role := "assistant", content := .blocks response.content }]
        let pairs := tool_uses.map (execTool registry)
        let tool_calls_log := tool_calls_log ++ pairs.map Prod.fst
        let tool_results := pairs.map Prod.snd
        runLoop registry rest
          (messages ++ [{ role := "user", content := .results tool_results }])
          tool_calls_log

/-- The seed message of `run`:
`f"[user_id={user_id}] [location={location}]\n\n{message}"`. -/
def seedMessage (user_id message location : String) : Message :=
  { role := "user",
    content := .text ("[user_id=" ++ user_id ++ "] [location=" ++ location
      ++ "]\n\n" ++ message) }

/-- `run(user_id, message, location)` with the model client scripted. -/
def run (registry : Registry) (script : List (Except String Response))
    (user_id message location : String) : Except String (Option RunResult) :=
  runLoop registry script [seedMessage user_id message location] []

/-! ## Preference store (`tools/prefs.py`, `memory/store.py`)

The SQLite-backed store is modelled as an association list from user id
to preference row; `query(Preference).filter_by(user_id=...).first()` is
the first lookup, and updating commits back the modified row in place.
Row columns are nullable (`Mapped[list | None]`), read through
`pref.field or []` which is `Option.getD []`. -/

/-- One row of the `preferences` table. -/
structure PrefRow where
  cuisines_liked : Option (List String)
  cuisines_disliked : Option (List String)
  dietary_restrictions : Option (List String)
  price_range : Option String
  liked_place_ids : Option (List String)
  disliked_place_ids : Option (List String)

/-- A freshly inserted `Preference(user_id=user_id)` row: the list
columns have `default=list` (so insert as `[]`), `price_range` is
nullable with no default. -/
def newPrefRow : PrefRow :=
  { cuisines_liked := some [], cuisines_disliked := some [],
    dietary_restrictions := some [], price_range := none,
    liked_place_ids := some [], disliked_place_ids := some [] }

/-- The database: the `users` table and the `preferences` table. -/
structure DB where
  users : List String
  prefs : List (String × PrefRow)

/-- `list(set(existing) | set(new))`: an unordered deduplicated union
(Python set iteration order is unspecified; this embedding picks the
dedup of the concatenation, which has the same membership and no
duplicates). -/
def listUnion (existing l : List String) : List String :=
  (existing ++ l).dedup

/-- Replace the first row with the given key, or insert a new row. -/
def upsertAssoc : List (String × PrefRow) → String → PrefRow → List (String × PrefRow)
  | [], k, v => [(k, v)]
  | (k', v') :: rest, k, v =>
      if k' = k then (k, v) :: rest else (k', v') :: upsertAssoc rest k v

/-- `save_preference`: partial-update upsert.  Returns the new database
and the tool's return value `{"status": "ok", "user_id": user_id}`. -/
def save_preference (db : DB) (user_id : String)
    (cuisines_liked : Option (List String) := none)
    (cuisines_disliked : Option (List String) := none)
    (dietary_restrictions : Option (List String) := none)
    (price_range : Option String := none)
    (liked_place_ids : Option (List String) := none)
    (disliked_place_ids : Option (List String) := none) : DB × Json :=
  let users := if user_id ∈ db.users then db.users else db.users ++ [user_id]
  let pref := (db.prefs.lookup user_id).getD newPrefRow
  let pref := match cuisines_liked with
    | some v => { pref with cuisines_liked := some (listUnion (pref.cuisines_liked.getD []) v) }
    | none => pref
  let pref := match cuisines_disliked with
    | some v => { pref with cuisines_disliked := some (listUnion (pref.cuisines_disliked.getD []) v) }
    | none => pref
  let pref := match dietary_restrictions with
    | some v => { pref with dietary_restrictions := some (listUnion (pref.dietary_restrictions.getD []) v) }
    | none => pref
  let pref := match price_range with
    | some p => { pref with price_range := some p }
    | none => pref
  let pref := match liked_place_ids with
    | some v => { pref with liked_place_ids := some (listUnion (pref.liked_place_ids.getD []) v) }
    | none => pref
  let pref := match disliked_place_ids with
    | some v => { pref with disliked_place_ids := some (listUnion (pref.disliked_place_ids.getD []) v) }
    | none => pref
  ({ users := users, prefs := upsertAssoc db.prefs user_id pref },
   .obj [("status", .str "ok"), ("user_id", .str user_id)])

/-- The dict returned by `get_preferences`. -/
structure PrefOut where
  user_id : String
  cuisines_liked : List String
  cuisines_disliked : List String
  dietary_restrictions : List String
  price_range : Option String
  liked_place_ids : List String
  disliked_place_ids : List String
  deriving DecidableEq

/-- `get_preferences`: the stored row read through `or []`, or the
all-empty default dict when no row exists. -/
def get_preferences (db : DB) (user_id : String) : PrefOut :=
  match db.prefs.lookup user_id with
  | none =>
      { user_id := user_id, cuisines_liked := [], cuisines_disliked := [],
        dietary_restrictions := [], price_range := none,
        liked_place_ids := [], disliked_place_ids := [] }
  | some pref =>
      { user_id := user_id,
        cuisines_liked := pref.cuisines_liked.getD [],
        cuisines_disliked := pref.cuisines_disliked.getD [],
        dietary_restrictions := pref.dietary_restrictions.getD [],
        price_range := pref.price_range,
        liked_place_ids := pref.liked_place_ids.getD [],
        disliked_place_ids := pref.disliked_place_ids.getD [] }

/-! ## Restaurant search (`tools/places.py`)

The Google Maps client is an external collaborator; it is modelled as a
record of oracle functions over an abstract type `V` of raw JSON values
(ratings and coordinates are floats, which this embedding carries
opaquely).  `client.places(...)` returns a dict read through
`results.get("results", [])`, modelled as `Option` with `getD []`. -/

/-- `geocode_result[i]["geometry"]["location"]`. -/
structure GeoRec (V : Type) where
  location : V

/-- The `geometry` sub-dict of a raw place, read through
`place.get("geometry", {}).get("location")`. -/
structure Geometry (V : Type) where
  location : Option V

/-- One raw place dict of the Text Search response (every key read with
`.get`, so every field may be absent). -/
structure RawPlace (V : Type) where
  place_id : Option V
  name : Option V
  formatted_address : Option V
  rating : Option V
  price_level : Option V
  types : Option (List V)
  geometry : Option (Geometry V)

/-- The googlemaps client: `geocode` and `places` oracle functions. -/
structure PlacesClient (V : Type) where
  geocode : String → List (GeoRec V)
  places : String → V → Nat → Option (List (RawPlace V))

/-- One dict of the list returned by `search_restaurants`. -/
structure PlaceOut (V : Type) where
  place_id : Option V
  name : Option V
  address : Option V
  rating : Option V
  price_level : Option V
  types : List V
  location : Option V

def mkPlaceOut {V : Type} (place : RawPlace V) : PlaceOut V :=
  { place_id := place.place_id, name := place.name,
    address := place.formatted_address, rating := place.rating,
    price_level := place.price_level, types := place.types.getD [],
    location := ((place.geometry.getD { location := none }).location) }

/-- `search_restaurants(query, location, radius=5000)`. -/
def search_restaurants {V : Type} (client : PlacesClient V)
    (query location : String) (radius : Nat := 5000) : List (PlaceOut V) :=
  let geocode_result := client.geocode location
  match geocode_result with
  | [] => []
  | g :: _ =>
      let results := (client.places ("restaurant " ++ query) g.location radius).getD []
      (results.take 10).map mkPlaceOut

/-! ## Auxiliaries for stating and proving the properties -/

/-- The assistant message appended before tool execution. -/
def assistantMsg (r : Response) : Message :=
  { role := "assistant", content := .blocks r.content }

/-- The user message carrying the batch of tool results. -/
def resultsMsg (rs : List ToolResult) : Message :=
  { role := "user", content := .results rs }

/-- The log entries one loop cycle appends, in tool-request order. -/
def cycleLog (registry : Registry) (r : Response) : List LogEntry :=
  (toolUses r).map fun tu => (execTool registry tu).1

/-- The tool-result blocks one loop cycle appends, in tool-request
order. -/
def cycleResults (registry : Registry) (r : Response) : List ToolResult :=
  (toolUses r).map fun tu => (execTool registry tu).2

/-- The stored preferences visible after an upsert. -/
def savedView (db : DB) (user_id : String)
    (cuisines_liked cuisines_disliked dietary_restrictions : Option (List String))
    (price_range : Option String)
    (liked_place_ids disliked_place_ids : Option (List String)) : PrefOut :=
  get_preferences
    (save_preference db user_id cuisines_liked cuisines_disliked
      dietary_restrictions price_range liked_place_ids disliked_place_ids).1
    user_id

mutual

/-- Fuel sufficient for `parseVal` to consume the emission of a value. -/
def jfuel : Json → Nat
  | .arr xs => 1 + jfuelElems xs
  | .obj kvs => 1 + jfuelMembers kvs
  | _ => 1

def jfuelElems : List Json → Nat
  | [] => 1
  | [x] => 1 + jfuel x
  | x :: y :: xs => 1 + max (jfuel x) (jfuelElems (y :: xs))

def jfuelMembers : List (String × Json) → Nat
  | [] => 1
  | [(_, v)] => 1 + jfuel v
  | (_, v) :: m :: kvs => 1 + max (jfuel v) (jfuelMembers (m :: kvs))

end

/-! ## JSON round-trip lemmas -/

theorem toNat_digitChar {n : Nat} (h : n < 10) : (digitChar n).toNat = 48 + n := by
  interval_cases n <;> decide

theorem isDigitChar_digitChar {n : Nat} (h : n < 10) :
    isDigitChar (digitChar n) = true := by
  interval_cases n <;> decide

theorem digitVal_digitChar {n : Nat} (h : n < 10) : digitVal (digitChar n) = n := by
  interval_cases n <;> decide

theorem natDigits_ne_nil (n : Nat) : natDigits n ≠ [] := by
  rw [natDigits]
  split <;> simp

theorem natDigits_all_digits (n : Nat) : ∀ c ∈ natDigits n, isDigitChar c = true := by
  induction n using Nat.strong_induction_on with
  | _ n ih =>
      rw [natDigits]
      split
      · rename_i h
        intro c hc
        simp only [List.mem_singleton] at hc
        subst hc
        exact isDigitChar_digitChar h
      · rename_i h
        intro c hc
        have hlt : n / 10 < n := Nat.div_lt_self (by omega) (by omega)
        rcases List.mem_append.mp hc with hc | hc
        · exact ih _ hlt c hc
        · simp only [List.mem_singleton] at hc
          subst hc
          exact isDigitChar_digitChar (Nat.mod_lt _ (by omega))

theorem foldl_digits_natDigits (n : Nat) : ∀ acc : Nat,
    (natDigits n).foldl (fun a c => 10 * a + digitVal c) acc =
      acc * 10 ^ (natDigits n).length + n := by
  induction n using Nat.strong_induction_on with
  | _ n ih =>
      intro acc
      rw [natDigits]
      split
      · rename_i h
        simp only [List.foldl_cons, List.foldl_nil, digitVal_digitChar h,
          List.length_singleton, pow_one]
        omega
      · rename_i h
        rw [List.foldl_append, ih (n / 10) (Nat.div_lt_self (by omega) (by omega)) acc]
        simp only [List.foldl_cons, List.foldl_nil, List.length_append,
          List.length_singleton, digitVal_digitChar (Nat.mod_lt n (by omega) : n % 10 < 10)]
        rw [pow_succ, ← mul_assoc]
        generalize (10 : Nat) ^ (natDigits (n / 10)).length = P
        generalize hA : acc * P = A
        omega

theorem takeDigits_append (ds rest : List Char)
    (hds : ∀ c ∈ ds, isDigitChar c = true) (hrest : noDigitHead rest) :
    takeDigits (ds ++ rest) = (ds, rest) := by
  induction ds with
  | nil =>
      simp only [List.nil_append]
      cases rest with
      | nil => rfl
      | cons c t =>
          have hc : isDigitChar c = false := hrest c rfl
          simp [takeDigits, hc]
  | cons c t ih =>
      have hc : isDigitChar c = true := hds c (by simp)
      simp [takeDigits, hc, ih (fun x hx => hds x (by simp [hx]))]

theorem digitsVal_natDigits (n : Nat) : digitsVal (natDigits n) = n := by
  unfold digitsVal
  rw [foldl_digits_natDigits n 0]
  simp

theorem parseNat_natDigits (n : Nat) (rest : List Char) (h : noDigitHead rest) :
    parseNat (natDigits n ++ rest) = some (n, rest) := by
  unfold parseNat
  rw [takeDigits_append _ _ (natDigits_all_digits n) h]
  simp [natDigits_ne_nil n, digitsVal_natDigits]

theorem parseStrBody_escape (s rest : List Char) :
    parseStrBody (escape s ++ '"' :: rest) = some (s, rest) := by
  induction s with
  | nil =>
      rw [escape, List.nil_append, parseStrBody.eq_def]
      simp
  | cons c cs ih =>
      by_cases hc : c = '"' ∨ c = '\\'
      · have hbs1 : ('\\' : Char) ≠ '"' := by decide
        simp only [escape, escChar, if_pos hc, List.cons_append, List.append_assoc]
        rw [parseStrBody.eq_def]
        simp [hbs1, ih]
      · push_neg at hc
        simp only [escape, escChar, if_neg (by tauto :
          ¬(c = '"' ∨ c = '\\')), List.cons_append, List.append_assoc]
        rw [parseStrBody.eq_def]
        simp [hc.1, hc.2, ih]

theorem noDigitHead_cons (c : Char) (l : List Char) (h : isDigitChar c = false) :
    noDigitHead (c :: l) := by
  intro d hd
  simp only [List.head?] at hd
  cases hd
  exact h

theorem noDigitHead_nil : noDigitHead [] := by
  intro d hd
  simp at hd

theorem isDigitChar_ne_specials {c : Char} (h : isDigitChar c = true) :
    c ≠ '"' ∧ c ≠ '[' ∧ c ≠ '\x7b' ∧ c ≠ '-' ∧
    c ≠ 'n' ∧ c ≠ 't' ∧ c ≠ 'f' ∧ c ≠ ']' ∧ c ≠ ',' := by
  refine ⟨?_, ?_, ?_, ?_, ?_, ?_, ?_, ?_, ?_⟩ <;>
    (intro he; subst he; exact absurd h (by decide))

/-- Unfolding of `parseVal` on a quote-headed input. -/
theorem parseVal_quote (f : Nat) (cs : List Char) :
    parseVal (f + 1) ('"' :: cs) =
      match parseStrBody cs with
      | some (s, rest) => some (.str (String.mk s), rest)
      | none => none := rfl

/-- Unfolding of `parseVal` on a bracket-headed input. -/
theorem parseVal_lbracket (f : Nat) (d : Char) (ds : List Char) :
    parseVal (f + 1) ('[' :: d :: ds) =
      (if d = ']' then some (.arr [], ds)
       else
        match parseElems f (d :: ds) with
        | some (xs, rest) =>
            match rest with
            | e :: es => if e = ']' then some (.arr xs, es) else none
            | [] => none
        | none => none) := rfl

/-- Unfolding of `parseVal` on a brace-headed input. -/
theorem parseVal_lbrace (f : Nat) (d : Char) (ds : List Char) :
    parseVal (f + 1) ('\x7b' :: d :: ds) =
      (if d = '\x7d' then some (.obj [], ds)
       else
        match parseMembers f (d :: ds) with
        | some (kvs, rest) =>
            match rest with
            | e :: es => if e = '\x7d' then some (.obj kvs, es) else none
            | [] => none
        | none => none) := rfl

/-- Unfolding of `parseVal` on a minus-headed input. -/
theorem parseVal_dash (f : Nat) (cs : List Char) :
    parseVal (f + 1) ('-' :: cs) =
      match parseNat cs with
      | some (n, rest) => some (.num (-(n : Int)), rest)
      | none => none := rfl

/-- Unfolding of `parseVal` on a digit-headed input. -/
theorem parseVal_digit (f : Nat) (c : Char) (cs : List Char)
    (hc : isDigitChar c = true) :
    parseVal (f + 1) (c :: cs) =
      match parseNat (c :: cs) with
      | some (n, rest) => some (.num (n : Int), rest)
      | none => none := by
  obtain ⟨h1, h2, h3, h4, h5, h6, h7, _, _⟩ := isDigitChar_ne_specials hc
  show (if c = '"' then _ else _) = _
  rw [if_neg h1, if_neg h2, if_neg h3, if_neg h4, if_neg h5, if_neg h6, if_neg h7,
    if_pos hc]

/-- Unfolding of `parseElems` at positive fuel. -/
theorem parseElems_succ (f : Nat) (input : List Char) :
    parseElems (f + 1) input =
      match parseVal f input with
      | none => none
      | some (v, rest) =>
          match rest with
          | c :: more =>
              if c = ',' then
                match parseElems f more with
                | some (xs, r) => some (v :: xs, r)
                | none => none
              else some ([v], c :: more)
          | [] => some ([v], []) := rfl

/-- Unfolding of `parseMembers` on a quote-headed input. -/
theorem parseMembers_quote (f : Nat) (cs : List Char) :
    parseMembers (f + 1) ('"' :: cs) =
      match parseStrBody cs with
      | some (k, rest1) =>
          match rest1 with
          | d :: rest2 =>
              if d = ':' then
                match parseVal f rest2 with
                | some (v, rest3) =>
                    match rest3 with
                    | e :: more =>
                        if e = ',' then
                          match parseMembers f more with
                          | some (kvs, r) => some ((String.mk k, v) :: kvs, r)
                          | none => none
                        else some ([(String.mk k, v)], e :: more)
                    | [] => some ([(String.mk k, v)], [])
                | none => none
              else none
          | [] => none
      | none => none := rfl

/-- The first character emitted for any value is never a closer or a
separator. -/
theorem emit_head (v : Json) :
    ∃ c t, emit v = c :: t ∧ c ≠ ']' ∧ c ≠ ',' := by
  cases v with
  | null => exact ⟨'n', _, rfl, by decide, by decide⟩
  | bool b =>
      cases b with
      | true => exact ⟨'t', _, rfl, by decide, by decide⟩
      | false => exact ⟨'f', _, rfl, by decide, by decide⟩
  | num k =>
      by_cases h : k < 0
      · refine ⟨'-', natDigits k.natAbs, ?_, by decide, by decide⟩
        show intChars k = _
        rw [intChars, if_pos h]
      · cases hnd : natDigits k.toNat with
        | nil => exact absurd hnd (natDigits_ne_nil _)
        | cons c t =>
            have hc : isDigitChar c = true :=
              natDigits_all_digits _ c (by rw [hnd]; simp)
            obtain ⟨_, _, _, _, _, _, _, h8, h9⟩ := isDigitChar_ne_specials hc
            refine ⟨c, t, ?_, h8, h9⟩
            show intChars k = _
            rw [intChars, if_neg h, hnd]
  | str s => exact ⟨'"', _, rfl, by decide, by decide⟩
  | arr xs => exact ⟨'[', _, rfl, by decide, by decide⟩
  | obj kvs => exact ⟨'\x7b', _, rfl, by decide, by decide⟩

/-- A nonempty element list is emitted starting with its first value's
first character. -/
theorem emitElems_head (x : Json) (xs : List Json) :
    ∃ c t, emitElems (x :: xs) = c :: t ∧ c ≠ ']' ∧ c ≠ ',' := by
  obtain ⟨c, t, he, h1, h2⟩ := emit_head x
  cases xs with
  | nil => exact ⟨c, t, by rw [show emitElems [x] = emit x from rfl, he], h1, h2⟩
  | cons y ys =>
      refine ⟨c, t ++ ',' :: emitElems (y :: ys), ?_, h1, h2⟩
      rw [show emitElems (x :: y :: ys) = emit x ++ ',' :: emitElems (y :: ys) from rfl,
        he]
      simp

/-- A nonempty member list is emitted starting with a quote. -/
theorem emitMembers_head (k : String) (v : Json) (kvs : List (String × Json)) :
    ∃ t, emitMembers ((k, v) :: kvs) = '"' :: t := by
  cases kvs with
  | nil => exact ⟨_, rfl⟩
  | cons m ms =>
      exact ⟨(escape k.data ++ '"' :: ':' :: emit v) ++ ',' :: emitMembers (m :: ms),
        by rw [show emitMembers ((k, v) :: m :: ms) =
          ('"' :: (escape k.data ++ '"' :: ':' :: emit v)) ++
            ',' :: emitMembers (m :: ms) from rfl]; simp⟩

theorem jfuel_pos (v : Json) : 1 ≤ jfuel v := by
  cases v with
  | null => exact Nat.le_refl 1
  | bool b => exact Nat.le_refl 1
  | num k => exact Nat.le_refl 1
  | str s => exact Nat.le_refl 1
  | arr xs => show 1 ≤ 1 + jfuelElems xs; omega
  | obj kvs => show 1 ≤ 1 + jfuelMembers kvs; omega

theorem jfuelElems_pos (xs : List Json) : 1 ≤ jfuelElems xs := by
  rcases xs with _ | ⟨x, _ | ⟨y, t⟩⟩
  · exact Nat.le_refl 1
  · show 1 ≤ 1 + jfuel x; omega
  · show 1 ≤ 1 + max (jfuel x) (jfuelElems (y :: t)); omega

theorem jfuelMembers_pos (kvs : List (String × Json)) : 1 ≤ jfuelMembers kvs := by
  rcases kvs with _ | ⟨⟨k, v⟩, _ | ⟨⟨k2, v2⟩, t⟩⟩
  · exact Nat.le_refl 1
  · show 1 ≤ 1 + jfuel v; omega
  · show 1 ≤ 1 + max (jfuel v) (jfuelMembers ((k2, v2) :: t)); omega

/-- The parser is a left inverse of the serializer, for any suffix. -/
theorem parse_emit (f : Nat) :
    (∀ (v : Json) (rest : List Char), jfuel v ≤ f → noDigitHead rest →
      parseVal f (emit v ++ rest) = some (v, rest)) ∧
    (∀ (xs : List Json) (rest : List Char), xs ≠ [] → jfuelElems xs ≤ f →
      rest.head? ≠ some ',' → noDigitHead rest →
      parseElems f (emitElems xs ++ rest) = some (xs, rest)) ∧
    (∀ (kvs : List (String × Json)) (rest : List Char), kvs ≠ [] →
      jfuelMembers kvs ≤ f → rest.head? ≠ some ',' → noDigitHead rest →
      parseMembers f (emitMembers kvs ++ rest) = some (kvs, rest)) := by
  induction f with
  | zero =>
      refine ⟨fun v rest hf _ => ?_, fun xs rest _ hf _ _ => ?_,
        fun kvs rest _ hf _ _ => ?_⟩
      · exact absurd hf (by have := jfuel_pos v; omega)
      · exact absurd hf (by have := jfuelElems_pos xs; omega)
      · exact absurd hf (by have := jfuelMembers_pos kvs; omega)
  | succ f ih =>
      obtain ⟨ihV, ihE, ihM⟩ := ih
      refine ⟨?_, ?_, ?_⟩
      · intro v rest hf hrest
        cases v with
        | null => rfl
        | bool b => cases b <;> rfl
        | num k =>
            by_cases hneg : k < 0
            · have he : emit (.num k) = '-' :: natDigits k.natAbs := by
                show intChars k = _
                rw [intChars, if_pos hneg]
              rw [he, List.cons_append, parseVal_dash,
                parseNat_natDigits _ _ hrest]
              have hk : -((k.natAbs : Nat) : Int) = k := by omega
              show some (Json.num (-((k.natAbs : Nat) : Int)), rest) =
                some (Json.num k, rest)
              rw [hk]
            · have he : emit (.num k) = natDigits k.toNat := by
                show intChars k = _
                rw [intChars, if_neg hneg]
              cases hnd : natDigits k.toNat with
              | nil => exact absurd hnd (natDigits_ne_nil _)
              | cons c t =>
                  have hc : isDigitChar c = true :=
                    natDigits_all_digits _ c (by rw [hnd]; simp)
                  rw [he, hnd, List.cons_append, parseVal_digit f c _ hc,
                    ← List.cons_append, ← hnd, parseNat_natDigits _ _ hrest]
                  have hk : ((k.toNat : Nat) : Int) = k := by omega
                  show some (Json.num ((k.toNat : Nat) : Int), rest) =
                    some (Json.num k, rest)
                  rw [hk]
        | str s =>
            have he : emit (.str s) ++ rest = '"' :: (escape s.data ++ '"' :: rest) := by
              show ('"' :: (escape s.data ++ ['"'])) ++ rest = _
              simp
            rw [he, parseVal_quote, parseStrBody_escape]
        | arr xs =>
            cases xs with
            | nil => rfl
            | cons x txs =>
                have hfe : jfuelElems (x :: txs) ≤ f := by
                  have h0 : jfuel (.arr (x :: txs)) = 1 + jfuelElems (x :: txs) := rfl
                  omega
                obtain ⟨c, t, he, hc1, _⟩ := emitElems_head x txs
                have hin : emit (.arr (x :: txs)) ++ rest =
                    '[' :: (c :: (t ++ ']' :: rest)) := by
                  show ('[' :: (emitElems (x :: txs) ++ [']'])) ++ rest = _
                  rw [he]
                  simp
                rw [hin, parseVal_lbracket, if_neg hc1,
                  show (c :: (t ++ ']' :: rest) : List Char) =
                    (c :: t) ++ ']' :: rest from by simp, ← he,
                  ihE (x :: txs) (']' :: rest) (by simp) hfe (by simp)
                    (noDigitHead_cons _ _ (by decide))]
                simp
        | obj kvs =>
            cases kvs with
            | nil => rfl
            | cons kv tkvs =>
                obtain ⟨k, v⟩ := kv
                have hfm : jfuelMembers ((k, v) :: tkvs) ≤ f := by
                  have h0 : jfuel (.obj ((k, v) :: tkvs)) =
                    1 + jfuelMembers ((k, v) :: tkvs) := rfl
                  omega
                obtain ⟨t, he⟩ := emitMembers_head k v tkvs
                have hin : emit (.obj ((k, v) :: tkvs)) ++ rest =
                    '\x7b' :: ('"' :: (t ++ '\x7d' :: rest)) := by
                  show ('\x7b' :: (emitMembers ((k, v) :: tkvs) ++ ['\x7d'])) ++ rest = _
                  rw [he]
                  simp
                rw [hin, parseVal_lbrace,
                  if_neg (by decide : ¬(('"' : Char) = '\x7d')),
                  show ('"' :: (t ++ '\x7d' :: rest) : List Char) =
                    ('"' :: t) ++ '\x7d' :: rest from by simp, ← he,
                  ihM ((k, v) :: tkvs) ('\x7d' :: rest) (by simp) hfm
                    (by simp) (noDigitHead_cons _ _ (by decide))]
                simp
      · intro xs rest hne hf hcomma hrest
        rcases xs with _ | ⟨x, _ | ⟨y, ys⟩⟩
        · exact absurd rfl hne
        · have hfx : jfuel x ≤ f := by
            have h0 : jfuelElems [x] = 1 + jfuel x := rfl
            omega
          rw [show emitElems [x] = emit x from rfl, parseElems_succ,
            ihV x rest hfx hrest]
          cases rest with
          | nil => rfl
          | cons c more =>
              have hc : c ≠ ',' := by
                intro he
                subst he
                exact hcomma rfl
              simp only [if_neg hc]
        · have hfx : jfuel x ≤ f ∧ jfuelElems (y :: ys) ≤ f := by
            have h0 : jfuelElems (x :: y :: ys) =
              1 + max (jfuel x) (jfuelElems (y :: ys)) := rfl
            omega
          have hin : emitElems (x :: y :: ys) ++ rest =
              emit x ++ (',' :: (emitElems (y :: ys) ++ rest)) := by
            show (emit x ++ ',' :: emitElems (y :: ys)) ++ rest = _
            simp
          rw [hin, parseElems_succ,
            ihV x (',' :: (emitElems (y :: ys) ++ rest)) hfx.1
              (noDigitHead_cons _ _ (by decide))]
          show (match parseElems f (emitElems (y :: ys) ++ rest) with
                | some (xs, r) => some (x :: xs, r)
                | none => none) = some (x :: y :: ys, rest)
          rw [ihE (y :: ys) rest (by simp) hfx.2 hcomma hrest]
      · intro kvs rest hne hf hcomma hrest
        rcases kvs with _ | ⟨⟨k, v⟩, _ | ⟨⟨k2, v2⟩, ms⟩⟩
        · exact absurd rfl hne
        · have hfv : jfuel v ≤ f := by
            have h0 : jfuelMembers [(k, v)] = 1 + jfuel v := rfl
            omega
          have hin : emitMembers [(k, v)] ++ rest =
              '"' :: (escape k.data ++ '"' :: (':' :: (emit v ++ rest))) := by
            show ('"' :: (escape k.data ++ '"' :: ':' :: emit v)) ++ rest = _
            simp
          rw [hin, parseMembers_quote, parseStrBody_escape]
          show (match parseVal f (emit v ++ rest) with
                | some (v, rest3) =>
                    match rest3 with
                    | e :: more =>
                        if e = ',' then
                          match parseMembers f more with
                          | some (kvs, r) => some ((String.mk k.data, v) :: kvs, r)
                          | none => none
                        else some ([(String.mk k.data, v)], e :: more)
                    | [] => some ([(String.mk k.data, v)], [])
                | none => none) = some ([(k, v)], rest)
          rw [ihV v rest hfv hrest]
          cases rest with
          | nil => rfl
          | cons c more =>
              have hc : c ≠ ',' := by
                intro he
                subst he
                exact hcomma rfl
              simp only [if_neg hc]
        · have hfv : jfuel v ≤ f ∧ jfuelMembers ((k2, v2) :: ms) ≤ f := by
            have h0 : jfuelMembers ((k, v) :: (k2, v2) :: ms) =
              1 + max (jfuel v) (jfuelMembers ((k2, v2) :: ms)) := rfl
            omega
          have hin : emitMembers ((k, v) :: (k2, v2) :: ms) ++ rest =
              '"' :: (escape k.data ++ '"' :: (':' ::
                (emit v ++ (',' :: (emitMembers ((k2, v2) :: ms) ++ rest))))) := by
            show (('"' :: (escape k.data ++ '"' :: ':' :: emit v)) ++
              ',' :: emitMembers ((k2, v2) :: ms)) ++ rest = _
            simp
          rw [hin, parseMembers_quote, parseStrBody_escape]
          show (match parseVal f (emit v ++ (',' :: (emitMembers ((k2, v2) :: ms) ++ rest))) with
                | some (v, rest3) =>
                    match rest3 with
                    | e :: more =>
                        if e = ',' then
                          match parseMembers f more with
                          | some (kvs, r) => some ((String.mk k.data, v) :: kvs, r)
                          | none => none
                        else some ([(String.mk k.data, v)], e :: more)
                    | [] => some ([(String.mk k.data, v)], [])
                | none => none) = some ((k, v) :: (k2, v2) :: ms, rest)
          rw [ihV v (',' :: (emitMembers ((k2, v2) :: ms) ++ rest)) hfv.1
              (noDigitHead_cons _ _ (by decide))]
          show (match parseMembers f (emitMembers ((k2, v2) :: ms) ++ rest) with
                | some (kvs, r) => some ((String.mk k.data, v) :: kvs, r)
                | none => none) = some ((k, v) :: (k2, v2) :: ms, rest)
          rw [ihM ((k2, v2) :: ms) rest (by simp) hfv.2 hcomma hrest]

mutual

/-- The serializer's output is always long enough to fuel the parser. -/
theorem jfuel_le_emit (v : Json) : jfuel v ≤ (emit v).length := by
  cases v with
  | null => decide
  | bool b => cases b <;> decide
  | num k =>
      show 1 ≤ (intChars k).length
      rw [intChars]
      split
      · simp
      · have h := List.length_pos.mpr (natDigits_ne_nil k.toNat)
        omega
  | str s =>
      show 1 ≤ ('"' :: (escape s.data ++ ['"'])).length
      simp
  | arr xs =>
      show 1 + jfuelElems xs ≤ ('[' :: (emitElems xs ++ [']'])).length
      have h := jfuelElems_le_emit xs
      simp only [List.length_cons, List.length_append, List.length_singleton]
      omega
  | obj kvs =>
      show 1 + jfuelMembers kvs ≤ ('\x7b' :: (emitMembers kvs ++ ['\x7d'])).length
      have h := jfuelMembers_le_emit kvs
      simp only [List.length_cons, List.length_append, List.length_singleton]
      omega

theorem jfuelElems_le_emit (xs : List Json) :
    jfuelElems xs ≤ (emitElems xs).length + 1 := by
  rcases xs with _ | ⟨x, _ | ⟨y, t⟩⟩
  · show 1 ≤ ([] : List Char).length + 1
    simp
  · show 1 + jfuel x ≤ (emit x).length + 1
    have h := jfuel_le_emit x
    omega
  · show 1 + max (jfuel x) (jfuelElems (y :: t)) ≤
      (emit x ++ ',' :: emitElems (y :: t)).length + 1
    have h1 := jfuel_le_emit x
    have h2 := jfuelElems_le_emit (y :: t)
    simp only [List.length_append, List.length_cons]
    omega

theorem jfuelMembers_le_emit (kvs : List (String × Json)) :
    jfuelMembers kvs ≤ (emitMembers kvs).length + 1 := by
  rcases kvs with _ | ⟨⟨k, v⟩, _ | ⟨⟨k2, v2⟩, t⟩⟩
  · show 1 ≤ ([] : List Char).length + 1
    simp
  · show 1 + jfuel v ≤ ('"' :: (escape k.data ++ '"' :: ':' :: emit v)).length + 1
    have h := jfuel_le_emit v
    simp only [List.length_cons, List.length_append]
    omega
  · show 1 + max (jfuel v) (jfuelMembers ((k2, v2) :: t)) ≤
      (('"' :: (escape k.data ++ '"' :: ':' :: emit v)) ++
        ',' :: emitMembers ((k2, v2) :: t)).length + 1
    have h1 := jfuel_le_emit v
    have h2 := jfuelMembers_le_emit ((k2, v2) :: t)
    simp only [List.length_append, List.length_cons]
    omega

end

/-- The serializer round-trips through the parser: `json.loads` of
`json.dumps` recovers the value. -/
theorem loads_dumps (v : Json) : loads (dumps v) = some v := by
  have hfuel : jfuel v ≤ (emit v).length + 1 := by
    have h := jfuel_le_emit v
    omega
  have h2 : parseVal ((emit v).length + 1) (emit v ++ []) = some (v, []) :=
    (parse_emit ((emit v).length + 1)).1 v [] hfuel noDigitHead_nil
  rw [List.append_nil] at h2
  unfold loads dumps
  rw [show (String.mk (emit v)).data = emit v from rfl, h2]

theorem toolUses_isEmpty_iff (r : Response) :
    ((toolUses r).isEmpty = true) ↔ toolUses r = [] := by
  cases toolUses r <;> simp [List.isEmpty]

/-- A response that signals `end_turn` or carries no tool-requests makes
the loop return with the accumulated log. -/
theorem runLoop_stop (registry : Registry) (rest : List (Except String Response))
    (msgs : List Message) (log : List LogEntry) (resp : Response)
    (h : resp.stop_reason = "end_turn" ∨ toolUses resp = []) :
    runLoop registry (.ok resp :: rest) msgs log =
      .ok (some { response := String.intercalate "\n" (textBlocks resp),
                  tool_calls := log }) := by
  have hc : resp.stop_reason = "end_turn" ∨ ((toolUses resp).isEmpty = true) := by
    rcases h with h | h
    · exact Or.inl h
    · exact Or.inr ((toolUses_isEmpty_iff resp).mpr h)
  simp only [runLoop, if_pos hc]

/-- A response that is not `end_turn` and carries tool-requests makes the
loop execute every tool-request in order and recurse. -/
theorem runLoop_step (registry : Registry) (rest : List (Except String Response))
    (msgs : List Message) (log : List LogEntry) (resp : Response)
    (h1 : resp.stop_reason ≠ "end_turn") (h2 : toolUses resp ≠ []) :
    runLoop registry (.ok resp :: rest) msgs log =
      runLoop registry rest
        (msgs ++ [assistantMsg resp, resultsMsg (cycleResults registry resp)])
        (log ++ cycleLog registry resp) := by
  have hc : ¬(resp.stop_reason = "end_turn" ∨ ((toolUses resp).isEmpty = true)) := by
    rintro (h | h)
    · exact h1 h
    · exact h2 ((toolUses_isEmpty_iff resp).mp h)
  simp only [runLoop, if_neg hc, List.map_map, List.append_assoc, List.cons_append,
    List.nil_append]
  rfl

/-! ## Preference store lemmas -/

theorem lookup_upsertAssoc (l : List (String × PrefRow)) (k : String) (v : PrefRow) :
    (upsertAssoc l k v).lookup k = some v := by
  induction l with
  | nil => simp [upsertAssoc, List.lookup]
  | cons hd tl ih =>
      obtain ⟨k', v'⟩ := hd
      by_cases h : k' = k
      · subst h
        simp [upsertAssoc, List.lookup]
      · simp only [upsertAssoc, if_neg h, List.lookup]
        have : (k == k') = false := by
          simp [Ne.symm h]
        rw [this]
        exact ih

/-- The sequence of per-field conditional updates in `save_preference`
equals a single record rebuilt field by field from the prior row. -/
theorem save_preference_prefs_eq (db : DB) (uid : String)
    (cl cd dr : Option (List String)) (pr : Option String)
    (lp dp : Option (List String)) :
    (save_preference db uid cl cd dr pr lp dp).1.prefs =
      upsertAssoc db.prefs uid
        (let p0 := (db.prefs.lookup uid).getD newPrefRow
         { cuisines_liked := match cl with
             | some v => some (listUnion (p0.cuisines_liked.getD []) v)
             | none => p0.cuisines_liked,
           cuisines_disliked := match cd with
             | some v => some (listUnion (p0.cuisines_disliked.getD []) v)
             | none => p0.cuisines_disliked,
           dietary_restrictions := match dr with
             | some v => some (listUnion (p0.dietary_restrictions.getD []) v)
             | none => p0.dietary_restrictions,
           price_range := match pr with
             | some p => some p
             | none => p0.price_range,
           liked_place_ids := match lp with
             | some v => some (listUnion (p0.liked_place_ids.getD []) v)
             | none => p0.liked_place_ids,
           disliked_place_ids := match dp with
             | some v => some (listUnion (p0.disliked_place_ids.getD []) v)
             | none => p0.disliked_place_ids }) := by
  cases cl <;> cases cd <;> cases dr <;> cases pr <;> cases lp <;> cases dp <;> rfl

/-- `get_preferences` through the row defaulted with `newPrefRow`. -/
theorem get_preferences_eq_row (db : DB) (uid : String) :
    get_preferences db uid =
      (let p0 := (db.prefs.lookup uid).getD newPrefRow
       { user_id := uid,
         cuisines_liked := p0.cuisines_liked.getD [],
         cuisines_disliked := p0.cuisines_disliked.getD [],
         dietary_restrictions := p0.dietary_restrictions.getD [],
         price_range := p0.price_range,
         liked_place_ids := p0.liked_place_ids.getD [],
         disliked_place_ids := p0.disliked_place_ids.getD [] }) := by
  cases h : db.prefs.lookup uid <;> simp [get_preferences, h, newPrefRow]

/-- The view after an upsert, field by field. -/
theorem savedView_eq (db : DB) (uid : String)
    (cl cd dr : Option (List String)) (pr : Option String)
    (lp dp : Option (List String)) :
    savedView db uid cl cd dr pr lp dp =
      (let p0 := (db.prefs.lookup uid).getD newPrefRow
       { user_id := uid,
         cuisines_liked := (match cl with
           | some v => some (listUnion (p0.cuisines_liked.getD []) v)
           | none => p0.cuisines_liked).getD [],
         cuisines_disliked := (match cd with
           | some v => some (listUnion (p0.cuisines_disliked.getD []) v)
           | none => p0.cuisines_disliked).getD [],
         dietary_restrictions := (match dr with
           | some v => some (listUnion (p0.dietary_restrictions.getD []) v)
           | none => p0.dietary_restrictions).getD [],
         price_range := match pr with
           | some p => some p
           | none => p0.price_range,
         liked_place_ids := (match lp with
           | some v => some (listUnion (p0.liked_place_ids.getD []) v)
           | none => p0.liked_place_ids).getD [],
         disliked_place_ids := (match dp with
           | some v => some (listUnion (p0.disliked_place_ids.getD []) v)
           | none => p0.disliked_place_ids).getD [] }) := by
  unfold savedView
  unfold get_preferences
  rw [save_preference_prefs_eq, lookup_upsertAssoc]

/-! ## Claim theorems -/

/-- C6: fetching preferences for a user identifier with no previously
stored record returns (not raises) the literal all-empty default
record. -/
theorem get_preferences_default_for_unknown_user (db : DB) (uid : String)
    (h : db.prefs.lookup uid = none) :
    get_preferences db uid =
      { user_id := uid, cuisines_liked := [], cuisines_disliked := [],
        dietary_restrictions := [], price_range := none,
        liked_place_ids := [], disliked_place_ids := [] } := by
  simp [get_preferences, h]

theorem get_preferences_default_for_unknown_user_witness :
    get_preferences ⟨[], []⟩ "u_new" =
      { user_id := "u_new", cuisines_liked := [], cuisines_disliked := [],
        dietary_restrictions := [], price_range := none,
        liked_place_ids := [], disliked_place_ids := [] } :=
  get_preferences_default_for_unknown_user ⟨[], []⟩ "u_new" rfl

/-- C7: a failure of the model-inference call propagates to the caller
of the loop as-is: the loop's value is the error itself, never a Run
Result, whatever log had been accumulated before the failure. -/
theorem inference_failure_propagates (registry : Registry) (e : String)
    (rest : List (Except String Response)) (msgs : List Message)
    (log : List LogEntry) :
    runLoop registry (.error e :: rest) msgs log = .error e := rfl

/-- C8: a model response with no tool-request blocks makes the loop
return a Run Result with an empty tool-call log and the newline-join of
the text blocks, in order. -/
theorem no_tool_round_trip (registry : Registry) (resp : Response)
    (uid msg loc : String) (h : toolUses resp = []) :
    run registry [.ok resp] uid msg loc =
      .ok (some { response := String.intercalate "\n" (textBlocks resp),
                  tool_calls := [] }) :=
  runLoop_stop registry [] [seedMessage uid msg loc] [] resp (Or.inr h)

theorem no_tool_round_trip_witness :
    run (fun _ => none)
        [.ok ⟨"end_turn", [Block.text "hi", Block.other "thinking", Block.text "there"]⟩]
        "u" "m" "l" =
      .ok (some { response := "hi\nthere", tool_calls := [] }) :=
  no_tool_round_trip (fun _ => none)
    ⟨"end_turn", [Block.text "hi", Block.other "thinking", Block.text "there"]⟩
    "u" "m" "l" rfl

/-- C9: every restaurant search returns at most 10 records, and returns
the empty list whenever geocoding the location yields no match. -/
theorem search_restaurants_bounds {V : Type} (client : PlacesClient V)
    (q loc : String) (radius : Nat) :
    (search_restaurants client q loc radius).length ≤ 10 ∧
    (client.geocode loc = [] → search_restaurants client q loc radius = []) := by
  constructor
  · unfold search_restaurants
    cases h : client.geocode loc with
    | nil => simp
    | cons g gs =>
        simp only [List.length_map]
        exact le_trans (List.length_take_le _ _) (by norm_num)
  · intro h
    simp [search_restaurants, h]

/-- Results of mapping over a list satisfy a pointwise relation with the
originals. -/
theorem forall₂_map_self {α β : Type} (f : α → β) (R : β → α → Prop)
    (l : List α) (h : ∀ a ∈ l, R (f a) a) : List.Forall₂ R (l.map f) l := by
  induction l with
  | nil => simp
  | cons a l ih =>
      exact List.Forall₂.cons (h a (by simp)) (ih fun a ha => h a (by simp [ha]))

/-- C1 counterexample: a response whose `stop_reason` is `"end_turn"` but
which still contains a tool-request block makes the loop return
successfully with that tool-request never executed (the returned log is
empty). -/
theorem runLoop_end_turn_drops_tool_requests :
    run (fun _ => none)
        [.ok ⟨"end_turn", [Block.tool_use ⟨"t1", "save_preference", []⟩]⟩]
        "u" "m" "l" =
      .ok (some { response := "", tool_calls := [] }) ∧
    toolUses ⟨"end_turn", [Block.tool_use ⟨"t1", "save_preference", []⟩]⟩ =
      [⟨"t1", "save_preference", []⟩] :=
  ⟨rfl, rfl⟩

/-- C1 (amended): the loop returns successfully exactly on a response
that signals `end_turn` **or** contains no tool-request blocks; whenever
it continues past a response, every tool-request of that response is
executed, in order, before the next inference call; and a successful
return implies some scripted response satisfied the (disjunctive) stop
condition. -/
theorem runLoop_success_characterization (registry : Registry) :
    (∀ (resp : Response) rest msgs log,
        (resp.stop_reason = "end_turn" ∨ toolUses resp = []) →
        runLoop registry (.ok resp :: rest) msgs log =
          .ok (some { response := String.intercalate "\n" (textBlocks resp),
                      tool_calls := log })) ∧
    (∀ (resp : Response) rest msgs log,
        resp.stop_reason ≠ "end_turn" → toolUses resp ≠ [] →
        runLoop registry (.ok resp :: rest) msgs log =
          runLoop registry rest
            (msgs ++ [assistantMsg resp, resultsMsg (cycleResults registry resp)])
            (log ++ cycleLog registry resp)) ∧
    (∀ script msgs log r, runLoop registry script msgs log = .ok (some r) →
        ∃ resp, Except.ok resp ∈ script ∧
          (resp.stop_reason = "end_turn" ∨ toolUses resp = [])) := by
  refine ⟨fun resp rest msgs log h => runLoop_stop registry rest msgs log resp h,
          fun resp rest msgs log h1 h2 => runLoop_step registry rest msgs log resp h1 h2,
          ?_⟩
  intro script
  induction script with
  | nil => intro msgs log r h; simp [runLoop] at h
  | cons hd tl ih =>
      intro msgs log r h
      cases hd with
      | error e => simp [runLoop] at h
      | ok resp =>
          by_cases hc : resp.stop_reason = "end_turn" ∨ ((toolUses resp).isEmpty = true)
          · refine ⟨resp, by simp, ?_⟩
            rcases hc with hc | hc
            · exact Or.inl hc
            · exact Or.inr ((toolUses_isEmpty_iff resp).mp hc)
          · simp only [runLoop, if_neg hc] at h
            obtain ⟨resp', hmem, hp⟩ := ih _ _ _ h
            exact ⟨resp', List.mem_cons_of_mem _ hmem, hp⟩

theorem runLoop_success_characterization_witness :
    runLoop (fun _ => none) [.ok ⟨"end_turn", [Block.text "done"]⟩] [] [] =
      .ok (some { response := "done", tool_calls := [] }) ∧
    (∃ resp : Response,
      (Except.ok resp : Except String Response) ∈
        [Except.ok (⟨"end_turn", [Block.text "done"]⟩ : Response)] ∧
      (resp.stop_reason = "end_turn" ∨ toolUses resp = [])) :=
  ⟨(runLoop_success_characterization (fun _ => none)).1
      ⟨"end_turn", [Block.text "done"]⟩ [] [] [] (Or.inl rfl),
   (runLoop_success_characterization (fun _ => none)).2.2
      [.ok ⟨"end_turn", [Block.text "done"]⟩] [] [] ⟨"done", []⟩ rfl⟩

/-- C2: a tool callable that raises is contained by the executor: the
log entry and tool-result block have the error flag set and the payload
`{"error": message}`, and the loop still proceeds to the next inference
call. -/
theorem execTool_contains_exceptions (registry : Registry) (tu : ToolUse)
    (fn : ToolFn) (msg : String)
    (hfn : registry tu.name = some fn) (herr : fn tu.input = .error msg) :
    (execTool registry tu).1.error = true ∧
    (execTool registry tu).1.output = dumps (.obj [("error", .str msg)]) ∧
    (execTool registry tu).2.is_error = true ∧
    (execTool registry tu).2.content = dumps (.obj [("error", .str msg)]) ∧
    (∀ (resp : Response) rest msgs log,
        resp.stop_reason ≠ "end_turn" → toolUses resp ≠ [] →
        ∃ msgs' log', runLoop registry (.ok resp :: rest) msgs log =
          runLoop registry rest msgs' log') := by
  have hd : dispatch_tool registry tu.name tu.input = .error msg := by
    simp [dispatch_tool, hfn, herr]
  refine ⟨by simp [execTool, hd], by simp [execTool, hd],
          by simp [execTool, hd], by simp [execTool, hd], ?_⟩
  intro resp rest msgs log h1 h2
  exact ⟨_, _, runLoop_step registry rest msgs log resp h1 h2⟩

theorem execTool_contains_exceptions_witness :
    (execTool (fun _ => some (fun _ => .error "boom")) ⟨"t1", "toolx", []⟩).1.error = true ∧
    (execTool (fun _ => some (fun _ => .error "boom")) ⟨"t1", "toolx", []⟩).1.output =
      dumps (.obj [("error", .str "boom")]) ∧
    (∃ msgs' log',
      runLoop (fun _ => some (fun _ => .error "boom"))
          [.ok ⟨"tool_use", [Block.tool_use ⟨"t1", "toolx", []⟩]⟩] [] [] =
        runLoop (fun _ => some (fun _ => .error "boom")) [] msgs' log') := by
  have h := execTool_contains_exceptions (fun _ => some (fun _ => .error "boom"))
    ⟨"t1", "toolx", []⟩ (fun _ => .error "boom") "boom" rfl rfl
  exact ⟨h.1, h.2.1,
    h.2.2.2.2 ⟨"tool_use", [Block.tool_use ⟨"t1", "toolx", []⟩]⟩ [] [] []
      (by decide) (fun hh => List.noConfusion hh)⟩

/-- C3: in a cycle the tool-result batch preserves the order of the
tool-requests and pairs each result with its originating request id, and
the tool-call log gains exactly one entry per invocation, appended after
the prior entries, never deduplicated or reordered. -/
theorem cycle_preserves_order_and_pairing (registry : Registry) (resp : Response)
    (rest : List (Except String Response)) (msgs : List Message)
    (log : List LogEntry)
    (h1 : resp.stop_reason ≠ "end_turn") (h2 : toolUses resp ≠ []) :
    runLoop registry (.ok resp :: rest) msgs log =
      runLoop registry rest
        (msgs ++ [assistantMsg resp, resultsMsg (cycleResults registry resp)])
        (log ++ cycleLog registry resp) ∧
    List.Forall₂ (fun (res : ToolResult) (tu : ToolUse) => res.tool_use_id = tu.id)
      (cycleResults registry resp) (toolUses resp) ∧
    (cycleLog registry resp).length = (toolUses resp).length ∧
    List.Forall₂ (fun (entry : LogEntry) (tu : ToolUse) =>
        entry.tool = tu.name ∧ entry.input = tu.input)
      (cycleLog registry resp) (toolUses resp) := by
  refine ⟨runLoop_step registry rest msgs log resp h1 h2, ?_, ?_, ?_⟩
  · exact forall₂_map_self _ _ _ (fun tu _ => rfl)
  · simp [cycleLog]
  · exact forall₂_map_self _ _ _ (fun tu _ => ⟨rfl, rfl⟩)

theorem cycle_preserves_order_and_pairing_witness :
    List.Forall₂ (fun (res : ToolResult) (tu : ToolUse) => res.tool_use_id = tu.id)
      (cycleResults (fun _ => none)
        ⟨"tool_use", [Block.tool_use ⟨"a", "x", []⟩, Block.tool_use ⟨"b", "y", []⟩,
          Block.tool_use ⟨"c", "z", []⟩]⟩)
      (toolUses ⟨"tool_use", [Block.tool_use ⟨"a", "x", []⟩, Block.tool_use ⟨"b", "y", []⟩,
          Block.tool_use ⟨"c", "z", []⟩]⟩) ∧
    (cycleLog (fun _ => none)
      ⟨"tool_use", [Block.tool_use ⟨"a", "x", []⟩, Block.tool_use ⟨"b", "y", []⟩,
        Block.tool_use ⟨"c", "z", []⟩]⟩).length =
      (toolUses ⟨"tool_use", [Block.tool_use ⟨"a", "x", []⟩, Block.tool_use ⟨"b", "y", []⟩,
        Block.tool_use ⟨"c", "z", []⟩]⟩).length := by
  have h := cycle_preserves_order_and_pairing (fun _ => none)
    ⟨"tool_use", [Block.tool_use ⟨"a", "x", []⟩, Block.tool_use ⟨"b", "y", []⟩,
      Block.tool_use ⟨"c", "z", []⟩]⟩ [] [] []
    (by decide) (fun hh => List.noConfusion hh)
  exact ⟨h.2.1, h.2.2.1⟩

/-- C4: upserting preferences unions-and-deduplicates list fields passed
non-None with the stored values, overwrites the scalar price-range field
when present, and leaves every None/absent field unchanged. -/
theorem save_preference_merge_semantics (db : DB) (uid : String)
    (cl cd dr : Option (List String)) (pr : Option String)
    (lp dp : Option (List String)) :
    (∀ l, cl = some l →
      (∀ x, x ∈ (savedView db uid cl cd dr pr lp dp).cuisines_liked ↔
        x ∈ (get_preferences db uid).cuisines_liked ∨ x ∈ l) ∧
      (savedView db uid cl cd dr pr lp dp).cuisines_liked.Nodup) ∧
    (cl = none → (savedView db uid cl cd dr pr lp dp).cuisines_liked =
      (get_preferences db uid).cuisines_liked) ∧
    (∀ l, cd = some l →
      (∀ x, x ∈ (savedView db uid cl cd dr pr lp dp).cuisines_disliked ↔
        x ∈ (get_preferences db uid).cuisines_disliked ∨ x ∈ l) ∧
      (savedView db uid cl cd dr pr lp dp).cuisines_disliked.Nodup) ∧
    (cd = none → (savedView db uid cl cd dr pr lp dp).cuisines_disliked =
      (get_preferences db uid).cuisines_disliked) ∧
    (∀ l, dr = some l →
      (∀ x, x ∈ (savedView db uid cl cd dr pr lp dp).dietary_restrictions ↔
        x ∈ (get_preferences db uid).dietary_restrictions ∨ x ∈ l) ∧
      (savedView db uid cl cd dr pr lp dp).dietary_restrictions.Nodup) ∧
    (dr = none → (savedView db uid cl cd dr pr lp dp).dietary_restrictions =
      (get_preferences db uid).dietary_restrictions) ∧
    (∀ p, pr = some p →
      (savedView db uid cl cd dr pr lp dp).price_range = some p) ∧
    (pr = none → (savedView db uid cl cd dr pr lp dp).price_range =
      (get_preferences db uid).price_range) ∧
    (∀ l, lp = some l →
      (∀ x, x ∈ (savedView db uid cl cd dr pr lp dp).liked_place_ids ↔
        x ∈ (get_preferences db uid).liked_place_ids ∨ x ∈ l) ∧
      (savedView db uid cl cd dr pr lp dp).liked_place_ids.Nodup) ∧
    (lp = none → (savedView db uid cl cd dr pr lp dp).liked_place_ids =
      (get_preferences db uid).liked_place_ids) ∧
    (∀ l, dp = some l →
      (∀ x, x ∈ (savedView db uid cl cd dr pr lp dp).disliked_place_ids ↔
        x ∈ (get_preferences db uid).disliked_place_ids ∨ x ∈ l) ∧
      (savedView db uid cl cd dr pr lp dp).disliked_place_ids.Nodup) ∧
    (dp = none → (savedView db uid cl cd dr pr lp dp).disliked_place_ids =
      (get_preferences db uid).disliked_place_ids) := by
  rw [savedView_eq, get_preferences_eq_row]
  refine ⟨?_, ?_, ?_, ?_, ?_, ?_, ?_, ?_, ?_, ?_, ?_, ?_⟩ <;>
    first
      | (rintro l rfl
         exact ⟨fun x => by simp [listUnion],
           by simp only [listUnion, Option.getD_some]; exact List.nodup_dedup _⟩)
      | (rintro rfl; rfl)
      | (rintro p rfl; rfl)

/-- After upserting the same list twice, the stored field still has no
duplicates and the same membership ("calling upsert twice with the same
list value must not duplicate entries"), and a later upsert of only the
price range leaves the earlier list untouched. -/
theorem save_preference_merge_semantics_witness :
    ("Thai" ∈ (savedView ⟨[], []⟩ "u" (some ["Thai"]) none none none none none).cuisines_liked) ∧
    (savedView
        (save_preference ⟨[], []⟩ "u" (some ["Thai"]) none none none none none).1
        "u" (some ["Thai"]) none none none none none).cuisines_liked.Nodup ∧
    (savedView
        (save_preference ⟨[], []⟩ "u" (some ["Thai"]) none none none none none).1
        "u" none none none (some "$$") none none).cuisines_liked =
      (get_preferences
        (save_preference ⟨[], []⟩ "u" (some ["Thai"]) none none none none none).1
        "u").cuisines_liked ∧
    (savedView
        (save_preference ⟨[], []⟩ "u" (some ["Thai"]) none none none none none).1
        "u" none none none (some "$$") none none).price_range = some "$$" := by
  refine ⟨?_, ?_, ?_, ?_⟩
  · exact ((save_preference_merge_semantics ⟨[], []⟩ "u" (some ["Thai"]) none none
      none none none).1 ["Thai"] rfl).1 "Thai" |>.mpr (Or.inr (by simp))
  · exact ((save_preference_merge_semantics
      (save_preference ⟨[], []⟩ "u" (some ["Thai"]) none none none none none).1
      "u" (some ["Thai"]) none none none none none).1 ["Thai"] rfl).2
  · exact (save_preference_merge_semantics
      (save_preference ⟨[], []⟩ "u" (some ["Thai"]) none none none none none).1
      "u" none none none (some "$$") none none).2.1 rfl
  · exact (save_preference_merge_semantics
      (save_preference ⟨[], []⟩ "u" (some ["Thai"]) none none none none none).1
      "u" none none none (some "$$") none none).2.2.2.2.2.2.1 "$$" rfl

/-- C5: dispatching a tool name not in the registry raises a distinct
`Unknown tool` error (never a silent no-op), and that failure is
contained by the executor like any tool failure: an error-flagged tool
result, with the loop proceeding rather than aborting. -/
theorem unknown_tool_fails_loudly_and_contained (registry : Registry) (tu : ToolUse)
    (h : registry tu.name = none) :
    dispatch_tool registry tu.name tu.input = .error ("Unknown tool: " ++ tu.name) ∧
    (∀ v, dispatch_tool registry tu.name tu.input ≠ .ok v) ∧
    (execTool registry tu).1.error = true ∧
    (execTool registry tu).2.is_error = true ∧
    (execTool registry tu).2.content =
      dumps (.obj [("error", .str ("Unknown tool: " ++ tu.name))]) ∧
    (∀ (resp : Response) rest msgs log,
        resp.stop_reason ≠ "end_turn" → toolUses resp ≠ [] →
        ∃ msgs' log', runLoop registry (.ok resp :: rest) msgs log =
          runLoop registry rest msgs' log') := by
  have hd : dispatch_tool registry tu.name tu.input =
      .error ("Unknown tool: " ++ tu.name) := by
    simp [dispatch_tool, h]
  refine ⟨hd, by simp [hd], by simp [execTool, hd], by simp [execTool, hd],
          by simp [execTool, hd], ?_⟩
  intro resp rest msgs log h1 h2
  exact ⟨_, _, runLoop_step registry rest msgs log resp h1 h2⟩

theorem unknown_tool_fails_loudly_and_contained_witness :
    dispatch_tool (fun _ => none) "mystery" [] = .error ("Unknown tool: " ++ "mystery") ∧
    (execTool (fun _ => none) ⟨"t9", "mystery", []⟩).2.is_error = true ∧
    (∃ msgs' log',
      runLoop (fun _ => none)
          [.ok ⟨"tool_use", [Block.tool_use ⟨"t9", "mystery", []⟩]⟩] [] [] =
        runLoop (fun _ => none) [] msgs' log') := by
  have h := unknown_tool_fails_loudly_and_contained (fun _ => none)
    ⟨"t9", "mystery", []⟩ rfl
  exact ⟨h.1, h.2.2.2.1,
    h.2.2.2.2.2 ⟨"tool_use", [Block.tool_use ⟨"t9", "mystery", []⟩]⟩ [] [] []
      (by decide) (fun hh => List.noConfusion hh)⟩

/-- C10: each executed tool-request yields exactly one log entry and one
tool-result block; the two carry the identical serialized output string
and the identical error flag, and the serialized output is the JSON
serialization of the tool's returned value (or of the error payload),
which deserializes back to that value. -/
theorem tool_log_result_consistency (registry : Registry) (tu : ToolUse) :
    (∀ tus : List ToolUse,
      ((tus.map (execTool registry)).map Prod.fst).length = tus.length ∧
      ((tus.map (execTool registry)).map Prod.snd).length = tus.length) ∧
    (execTool registry tu).1.output = (execTool registry tu).2.content ∧
    (execTool registry tu).1.error = (execTool registry tu).2.is_error ∧
    (execTool registry tu).1.tool = tu.name ∧
    (execTool registry tu).1.input = tu.input ∧
    (execTool registry tu).2.tool_use_id = tu.id ∧
    (match dispatch_tool registry tu.name tu.input with
     | .ok v =>
         (execTool registry tu).1.output = dumps v ∧
         (execTool registry tu).1.error = false ∧
         loads ((execTool registry tu).1.output) = some v
     | .error e =>
         (execTool registry tu).1.output = dumps (.obj [("error", .str e)]) ∧
         (execTool registry tu).1.error = true ∧
         loads ((execTool registry tu).1.output) =
           some (.obj [("error", .str e)])) := by
  refine ⟨fun tus => ⟨by simp, by simp⟩, rfl, rfl, rfl, rfl, rfl, ?_⟩
  cases hd : dispatch_tool registry tu.name tu.input with
  | ok v => exact ⟨by simp [execTool, hd], by simp [execTool, hd],
      by simp [execTool, hd, loads_dumps]⟩
  | error e => exact ⟨by simp [execTool, hd], by simp [execTool, hd],
      by simp [execTool, hd, loads_dumps]⟩

theorem search_restaurants_bounds_witness :
    (search_restaurants (V := Unit) ⟨fun _ => [], fun _ _ _ => none⟩
      "ramen" "Atlantis" 5000).length ≤ 10 ∧
    search_restaurants (V := Unit) ⟨fun _ => [], fun _ _ _ => none⟩
      "ramen" "Atlantis" 5000 = [] :=
  ⟨(search_restaurants_bounds ⟨fun _ => [], fun _ _ _ => none⟩ "ramen" "Atlantis" 5000).1,
   (search_restaurants_bounds ⟨fun _ => [], fun _ _ _ => none⟩ "ramen" "Atlantis" 5000).2 rfl⟩

end GourmAgent
